import Mathlib

/-!
Verification of the synchronization engine of the Flamichka/sync repository
(src/frontend/script.js), as a shallow embedding in Lean 4.

Modelling conventions:
* JavaScript numbers are modelled as rationals (ℚ).  A value that may be
  NaN (or JavaScript null, or a missing/unparsable field) is modelled as
  Option ℚ, with `none` standing for the non-numeric value; the JS
  arithmetic operators propagate `none` the way JS arithmetic propagates
  NaN, and JS comparisons involving NaN return false.
* The media element (Media Control Facade) is external: reads of
  Date.now() and audio.currentTime arrive as inputs on every event, writes
  to the element are emitted as an output list of facade calls.
* DOM-only code (status text, sliders, listener table rendering) has no
  core semantics and is not modelled.
-/

/-- A JavaScript number that may be NaN / null / undefined (`none`). -/
abbrev JSNum := Option ℚ

def jsAdd : JSNum → JSNum → JSNum
  | some a, some b => some (a + b)
  | _, _ => none

def jsSub : JSNum → JSNum → JSNum
  | some a, some b => some (a - b)
  | _, _ => none

def jsMul : JSNum → JSNum → JSNum
  | some a, some b => some (a * b)
  | _, _ => none

def jsDiv : JSNum → JSNum → JSNum
  | some a, some b => some (a / b)
  | _, _ => none

/-- JS Math.abs; NaN propagates. -/
def jsAbs : JSNum → JSNum
  | some a => some |a|
  | none => none

/-- JS Math.max; Math.max(NaN, x) = NaN. -/
def jsMax : JSNum → JSNum → JSNum
  | some a, some b => some (max a b)
  | _, _ => none

/-- JS Math.min; Math.min(NaN, x) = NaN. -/
def jsMin : JSNum → JSNum → JSNum
  | some a, some b => some (min a b)
  | _, _ => none

/-- JS `a > b`: false when either side is NaN. -/
def jsGtB : JSNum → JSNum → Bool
  | some a, some b => decide (b < a)
  | _, _ => false

/-- JS `a <= b`: false when either side is NaN. -/
def jsLeB : JSNum → JSNum → Bool
  | some a, some b => decide (a ≤ b)
  | _, _ => false

/-- script.js `clamp(x, lo, hi) = Math.min(hi, Math.max(lo, x))`. -/
def jsClamp (x lo hi : JSNum) : JSNum := jsMin hi (jsMax lo x)

/-- The rational-valued clamp, `min hi (max lo x)`. -/
def qclamp (x lo hi : ℚ) : ℚ := min hi (max lo x)

@[simp] theorem jsAdd_some (a b : ℚ) : jsAdd (some a) (some b) = some (a + b) := rfl
@[simp] theorem jsSub_some (a b : ℚ) : jsSub (some a) (some b) = some (a - b) := rfl
@[simp] theorem jsMul_some (a b : ℚ) : jsMul (some a) (some b) = some (a * b) := rfl
@[simp] theorem jsDiv_some (a b : ℚ) : jsDiv (some a) (some b) = some (a / b) := rfl
@[simp] theorem jsAbs_some (a : ℚ) : jsAbs (some a) = some |a| := rfl
@[simp] theorem jsMax_some (a b : ℚ) : jsMax (some a) (some b) = some (max a b) := rfl
@[simp] theorem jsMin_some (a b : ℚ) : jsMin (some a) (some b) = some (min a b) := rfl
@[simp] theorem jsGtB_some (a b : ℚ) : jsGtB (some a) (some b) = decide (b < a) := rfl
@[simp] theorem jsLeB_some (a b : ℚ) : jsLeB (some a) (some b) = decide (a ≤ b) := rfl
@[simp] theorem jsClamp_some (x lo hi : ℚ) :
    jsClamp (some x) (some lo) (some hi) = some (qclamp x lo hi) := rfl

@[simp] theorem jsAdd_none_right (a : JSNum) : jsAdd a none = none := by cases a <;> rfl
@[simp] theorem jsAdd_none_left (a : JSNum) : jsAdd none a = none := rfl
@[simp] theorem jsSub_none_right (a : JSNum) : jsSub a none = none := by cases a <;> rfl
@[simp] theorem jsSub_none_left (a : JSNum) : jsSub none a = none := rfl
@[simp] theorem jsMul_none_right (a : JSNum) : jsMul a none = none := by cases a <;> rfl
@[simp] theorem jsMul_none_left (a : JSNum) : jsMul none a = none := rfl
@[simp] theorem jsDiv_none_right (a : JSNum) : jsDiv a none = none := by cases a <;> rfl
@[simp] theorem jsDiv_none_left (a : JSNum) : jsDiv none a = none := rfl
@[simp] theorem jsAbs_none : jsAbs none = none := rfl
@[simp] theorem jsMax_none_right (a : JSNum) : jsMax a none = none := by cases a <;> rfl
@[simp] theorem jsMax_none_left (a : JSNum) : jsMax none a = none := rfl
@[simp] theorem jsGtB_none_right (a : JSNum) : jsGtB a none = false := by cases a <;> rfl
@[simp] theorem jsGtB_none_left (a : JSNum) : jsGtB none a = false := rfl
@[simp] theorem jsLeB_none_right (a : JSNum) : jsLeB a none = false := by cases a <;> rfl
@[simp] theorem jsLeB_none_left (a : JSNum) : jsLeB none a = false := rfl

/-- The authoritative room-state snapshot pushed by the server
(`state` variable in script.js).  The `playback_rate` and `volume` fields
are `Option ℚ` because the client checks `typeof === "number"` on them;
`none` models a missing or non-numeric field. -/
structure Snapshot where
  track_url : String
  paused : Bool
  position_sec : ℚ
  start_epoch_ms : ℚ
  playback_rate : Option ℚ
  volume : Option ℚ
  deriving DecidableEq, Repr

/-- Inbound transport messages handled by `handleMessage` in script.js. -/
inductive Msg where
  | init (s : Snapshot)
  | stateMsg (reason : Option String) (s : Snapshot)
  | ping (t0 : JSNum)
  | clients
  | error
  deriving DecidableEq, Repr

/-- Calls issued to the media element (Media Control Facade). -/
inductive FCall where
  | setSrc (url : String)
  | load
  | seekTo (pos : JSNum)
  | setRate (r : JSNum)
  | setVolume (v : ℚ)
  | play
  deriving DecidableEq, Repr

/-- Outputs of an engine step: facade calls, outbound transport sends,
and scheduled reconnect delays. -/
inductive Out where
  | call (c : FCall)
  | sendPong (t0 : JSNum)
  | sendHello
  | schedule (delayMs : ℕ)
  deriving DecidableEq, Repr

/-- The mutable state of the client engine in script.js. -/
structure Engine where
  clockOffsetMs : JSNum
  lastPingRTT : JSNum
  driftInt : JSNum
  clockCalibrated : Bool
  basePlaybackRate : ℚ
  lastAppliedRate : JSNum
  playbackRate : JSNum
  lastStateReason : Option String
  roomState : Snapshot
  buffering : Bool
  audioSrc : String
  reconnectAttempts : ℕ
  shouldReconnect : Bool
  deriving DecidableEq, Repr

/-- Initial values of the script.js module-level variables. -/
def initEngine : Engine :=
  { clockOffsetMs := some 0
    lastPingRTT := none
    driftInt := some 0
    clockCalibrated := false
    basePlaybackRate := 1
    lastAppliedRate := some 1
    playbackRate := some 1
    lastStateReason := none
    roomState :=
      { track_url := ""
        paused := true
        position_sec := 0
        start_epoch_ms := 0
        playback_rate := some 1
        volume := some 1 }
    buffering := false
    audioSrc := ""
    reconnectAttempts := 0
    shouldReconnect := true }

/-- script.js `desiredPositionSec()`:
`serverNow = Date.now() + clockOffsetMs`;
`elapsed = Math.max(0, (serverNow - state.start_epoch_ms) / 1000)`;
`return state.paused ? state.position_sec : elapsed`. -/
def desiredPositionSec (e : Engine) (now : ℚ) : JSNum :=
  let serverNow := jsAdd (some now) e.clockOffsetMs
  let elapsed := jsMax (some 0)
    (jsDiv (jsSub serverNow (some e.roomState.start_epoch_ms)) (some 1000))
  if e.roomState.paused then some e.roomState.position_sec else elapsed

/-- script.js `applyVolume(v)`:
`audio.volume = typeof v === "number" ? Math.max(0, Math.min(1, v)) : 1.0`. -/
def applyVolumeVal : Option ℚ → ℚ
  | some v => max 0 (min 1 v)
  | none => 1

/-- script.js `applyState(s)`: replace the room state wholesale,
set `basePlaybackRate` from the snapshot when numeric (else 1.0),
halve the drift integrator, and set `lastAppliedRate` to the base rate. -/
def applyState (e : Engine) (s : Snapshot) : Engine :=
  let base : ℚ := match s.playback_rate with | some b => b | none => 1
  { e with
    roomState := s
    basePlaybackRate := base
    driftInt := jsMul e.driftInt (some 0.5)
    lastAppliedRate := some base }

/-- script.js `ensureAudioSource(url)`: if the element source differs,
reassign it, reset `currentTime` to 0 and (for a non-empty url) load. -/
def ensureAudioSource (e : Engine) (url : String) : Engine × List Out :=
  if e.audioSrc ≠ url then
    ({ e with audioSrc := url },
     [Out.call (FCall.setSrc url), Out.call (FCall.seekTo (some 0))] ++
       (if url ≠ "" then [Out.call FCall.load] else []))
  else (e, [])

/-- script.js `tryPlay()`: play only with a source and when not paused. -/
def tryPlay (e : Engine) : List Out :=
  if e.audioSrc = "" then []
  else if e.roomState.paused then []
  else [Out.call FCall.play]

/-- script.js `performJumpAlign(reason)`: one-shot alignment used on
init / explicit seek / track change / play.  `cur` is the
`audio.currentTime` reading at the call (`audio.currentTime || 0`). -/
def performJumpAlign (e : Engine) (now cur : ℚ) (reason : String) : List Out :=
  if e.audioSrc = "" then []
  else
    let desired := jsMax (some 0) (desiredPositionSec e now)
    let driftMs := jsMul (jsSub desired (some cur)) (some 1000)
    let bigJump := jsGtB (jsAbs driftMs) (some 25)
    if reason = "seek" ∨ reason = "set_track" ∨ reason = "play" ∨
        reason = "init" ∨ jsGtB (jsAbs driftMs) (some 1500) = true then
      if bigJump then [Out.call (FCall.seekTo desired)] else []
    else []

/-- script.js `setPlaybackRate(target)`: clamp the target to the hard sane
bounds [0.5, 2.0], move 30% from the last applied rate toward it, and
write the media element rate only when it changes by more than 0.001. -/
def setPlaybackRate (e : Engine) (target : JSNum) : Engine × List Out :=
  let t := jsClamp target (some 0.5) (some 2.0)
  let smoothed := jsAdd e.lastAppliedRate (jsMul (jsSub t e.lastAppliedRate) (some 0.3))
  if jsGtB (jsAbs (jsSub smoothed e.playbackRate)) (some 0.001) then
    ({ e with lastAppliedRate := smoothed, playbackRate := smoothed },
     [Out.call (FCall.setRate smoothed)])
  else
    ({ e with lastAppliedRate := smoothed }, [])

/-- script.js `targetRateTowards(target)`: slew-limit the change per tick
to ±MAX_RATE_SLEW (0.004) before handing to `setPlaybackRate`. -/
def targetRateTowards (e : Engine) (target : JSNum) : Engine × List Out :=
  let delta := jsSub target e.lastAppliedRate
  let step := jsClamp delta (some (-0.004)) (some 0.004)
  setPlaybackRate e (jsAdd e.lastAppliedRate step)

/-- The guard of the control loop:
`!audio.src || state.paused || buffering || !clockCalibrated`. -/
def tickIdle (e : Engine) : Bool :=
  (e.audioSrc == "") || e.roomState.paused || e.buffering || !e.clockCalibrated

/-- The drift in milliseconds computed by the control loop:
`(Math.max(0, desiredPositionSec()) - audio.currentTime) * 1000`. -/
def driftMsOf (e : Engine) (now cur : ℚ) : JSNum :=
  jsMul (jsSub (jsMax (some 0) (desiredPositionSec e now)) (some cur)) (some 1000)

/-- script.js control loop body (the `setInterval(..., CTRL.TICK_MS)`
callback): idle-relax / hard-seek / dead-band / PI-control. -/
def controlTick (e : Engine) (now cur : ℚ) : Engine × List Out :=
  if tickIdle e then setPlaybackRate e (some e.basePlaybackRate)
  else
    let desired := jsMax (some 0) (desiredPositionSec e now)
    let drift := jsSub desired (some cur)
    let driftMs := jsMul drift (some 1000)
    if jsGtB (jsAbs driftMs) (some 1500) then
      -- hard seek: jump once, relax rate to base, reset integrator
      let r := setPlaybackRate e (some e.basePlaybackRate)
      ({ r.1 with driftInt := some 0 }, Out.call (FCall.seekTo desired) :: r.2)
    else if jsLeB (jsAbs driftMs) (some 25) then
      -- dead band: decay integrator, relax toward base
      targetRateTowards { e with driftInt := jsMul e.driftInt (some 0.9) }
        (some e.basePlaybackRate)
    else
      -- PI controller with leaky integral and clamped rate offset
      let dInt := jsAdd (jsMul e.driftInt (some 0.98)) (jsMul drift (some (200 / 1000)))
      let offset := jsClamp (jsAdd (jsMul (some 0.10) drift) (jsMul (some 0.02) dInt))
        (some (-0.015)) (some 0.015)
      let target := jsMul (some e.basePlaybackRate) (jsAdd (some 1) offset)
      targetRateTowards { e with driftInt := dInt } target

/-- script.js `handleMessage(msg)`; `now` is the `Date.now()` reading and
`cur` the `audio.currentTime` reading during the handler. -/
def handleMessage (e : Engine) (now cur : ℚ) (m : Msg) : Engine × List Out :=
  match m with
  | Msg.init s =>
      let e1 := applyState e s
      let srcChanged := e1.audioSrc ≠ s.track_url
      let e2 := (ensureAudioSource e1 s.track_url).1
      let o2 := (ensureAudioSource e1 s.track_url).2
      let cur1 := if srcChanged then 0 else cur
      let o3 := [Out.call (FCall.setVolume (applyVolumeVal s.volume))]
      let o4 := performJumpAlign e2 now cur1 "init"
      let o5 := if s.paused then [] else tryPlay e2
      (e2, o2 ++ o3 ++ o4 ++ o5)
  | Msg.stateMsg reason s =>
      let e1 := { applyState e s with lastStateReason := reason }
      let srcChanged := e1.audioSrc ≠ s.track_url
      let e2 := (ensureAudioSource e1 s.track_url).1
      let o2 := (ensureAudioSource e1 s.track_url).2
      let cur1 := if srcChanged then 0 else cur
      let o3 := [Out.call (FCall.setVolume (applyVolumeVal s.volume))]
      let o4 :=
        match reason with
        | some r =>
            if r = "seek" ∨ r = "set_track" ∨ r = "play" then
              performJumpAlign e2 now cur1 r
            else []
        | none => []
      let o5 := if s.paused then [] else tryPlay e2
      (e2, o2 ++ o3 ++ o4 ++ o5)
  | Msg.ping t0 =>
      let rtt := jsSub (some now) t0
      ({ e with
          lastPingRTT := rtt
          clockOffsetMs := jsSub (jsAdd t0 (jsDiv rtt (some 2))) (some now)
          clockCalibrated := true },
       [Out.sendPong t0])
  | Msg.clients => (e, [])
  | Msg.error => (e, [])

/-- `ws.onopen`: reset the reconnect counter and send the hello. -/
def wsOnOpen (e : Engine) : Engine × List Out :=
  ({ e with reconnectAttempts := 0 }, [Out.sendHello])

/-- `ws.onclose`: when reconnection is enabled, schedule a reconnect after
`Math.min(5000, 500 * Math.pow(2, reconnectAttempts++))`. -/
def wsOnClose (e : Engine) : Engine × List Out :=
  if e.shouldReconnect then
    ({ e with reconnectAttempts := e.reconnectAttempts + 1 },
     [Out.schedule (min 5000 (500 * 2 ^ e.reconnectAttempts))])
  else (e, [])

/-- An input event to the engine: an inbound message, a control-loop tick
(each with the environment readings taken during it), a transport
open/close, or a buffering transition of the media element. -/
inductive Event where
  | msg (now cur : ℚ) (m : Msg)
  | tick (now cur : ℚ)
  | wsOpen
  | wsClose
  | bufferStart
  | bufferEnd
  deriving DecidableEq, Repr

/-- One engine step on one event. -/
def stepE (e : Engine) : Event → Engine × List Out
  | Event.msg now cur m => handleMessage e now cur m
  | Event.tick now cur => controlTick e now cur
  | Event.wsOpen => wsOnOpen e
  | Event.wsClose => wsOnClose e
  | Event.bufferStart => ({ e with buffering := true }, [])
  | Event.bufferEnd => ({ e with buffering := false }, [])

/-- Run the engine over a list of events, concatenating the outputs. -/
def runE (e : Engine) : List Event → Engine × List Out
  | [] => (e, [])
  | ev :: evs =>
      let (e1, o1) := stepE e ev
      let (e2, o2) := runE e1 evs
      (e2, o1 ++ o2)

/-- The subsequence of Media Control Facade calls in an output list. -/
def facadeOf (outs : List Out) : List FCall :=
  outs.filterMap fun o => match o with | Out.call c => some c | _ => none

/-- The facade-call trace produced by a whole session from the initial
engine state. -/
def facadeCalls (es : List Event) : List FCall :=
  facadeOf (runE initEngine es).2

/-- The scheduled reconnect delays in an output list. -/
def schedulesOf (outs : List Out) : List ℕ :=
  outs.filterMap fun o => match o with | Out.schedule d => some d | _ => none

/-- The reconnect delay used for attempt counter `a`:
`Math.min(5000, 500 * Math.pow(2, a))`. -/
def backoffDelay (a : ℕ) : ℕ := min 5000 (500 * 2 ^ a)

/-- Events carrying a ping message. -/
def isPingEvent : Event → Bool
  | Event.msg _ _ (Msg.ping _) => true
  | _ => false

/-- Events carrying a snapshot (an init or state message). -/
def isSnapshotEvent : Event → Bool
  | Event.msg _ _ (Msg.init _) => true
  | Event.msg _ _ (Msg.stateMsg _ _) => true
  | _ => false

/-- Run a sequence of control-loop ticks, one per (Date.now(),
audio.currentTime) reading pair. -/
def runTicks (e : Engine) (pts : List (ℚ × ℚ)) : Engine × List Out :=
  runE e (pts.map fun p => Event.tick p.1 p.2)

/-- The fields of the engine that the control loop can never modify. -/
structure TickFrame where
  clockOffsetMs : JSNum
  clockCalibrated : Bool
  basePlaybackRate : ℚ
  roomState : Snapshot
  buffering : Bool
  audioSrc : String
  deriving DecidableEq

/-- The control-loop-invariant part of an engine state. -/
def tickFrame (e : Engine) : TickFrame :=
  { clockOffsetMs := e.clockOffsetMs
    clockCalibrated := e.clockCalibrated
    basePlaybackRate := e.basePlaybackRate
    roomState := e.roomState
    buffering := e.buffering
    audioSrc := e.audioSrc }

section Lemmas

/-! Structural lemmas about the engine step functions. -/

theorem setPlaybackRate_lastAppliedRate (e : Engine) (target : JSNum) :
    (setPlaybackRate e target).1.lastAppliedRate =
      jsAdd e.lastAppliedRate
        (jsMul (jsSub (jsClamp target (some 0.5) (some 2.0)) e.lastAppliedRate) (some 0.3)) := by
  unfold setPlaybackRate
  dsimp only
  split <;> rfl

theorem setPlaybackRate_driftInt (e : Engine) (target : JSNum) :
    (setPlaybackRate e target).1.driftInt = e.driftInt := by
  unfold setPlaybackRate
  dsimp only
  split <;> rfl

/-- `setPlaybackRate` changes only the rate fields of the engine. -/
theorem setPlaybackRate_frame (e : Engine) (target : JSNum) :
    tickFrame (setPlaybackRate e target).1 = tickFrame e := by
  unfold setPlaybackRate
  dsimp only
  split <;> rfl

/-- `setPlaybackRate` never seeks: its only possible output is a rate write. -/
theorem setPlaybackRate_no_seek (e : Engine) (target : JSNum) (p : JSNum) :
    Out.call (FCall.seekTo p) ∉ (setPlaybackRate e target).2 := by
  unfold setPlaybackRate
  dsimp only
  split <;> simp

theorem targetRateTowards_lastAppliedRate (e : Engine) (target : JSNum) :
    (targetRateTowards e target).1.lastAppliedRate =
      jsAdd e.lastAppliedRate
        (jsMul
          (jsSub
            (jsClamp
              (jsAdd e.lastAppliedRate
                (jsClamp (jsSub target e.lastAppliedRate) (some (-0.004)) (some 0.004)))
              (some 0.5) (some 2.0))
            e.lastAppliedRate)
          (some 0.3)) := by
  unfold targetRateTowards
  exact setPlaybackRate_lastAppliedRate _ _

theorem targetRateTowards_driftInt (e : Engine) (target : JSNum) :
    (targetRateTowards e target).1.driftInt = e.driftInt := by
  unfold targetRateTowards
  exact setPlaybackRate_driftInt _ _

theorem targetRateTowards_no_seek (e : Engine) (target : JSNum) (p : JSNum) :
    Out.call (FCall.seekTo p) ∉ (targetRateTowards e target).2 := by
  unfold targetRateTowards
  exact setPlaybackRate_no_seek _ _ _

theorem targetRateTowards_frame (e : Engine) (target : JSNum) :
    tickFrame (targetRateTowards e target).1 = tickFrame e := by
  unfold targetRateTowards
  exact setPlaybackRate_frame _ _

/-- Projections of a `tickFrame` equality. -/
theorem tickFrame_eq_iff (a b : Engine) :
    tickFrame a = tickFrame b ↔
      (a.clockOffsetMs = b.clockOffsetMs ∧ a.clockCalibrated = b.clockCalibrated ∧
       a.basePlaybackRate = b.basePlaybackRate ∧ a.roomState = b.roomState ∧
       a.buffering = b.buffering ∧ a.audioSrc = b.audioSrc) := by
  unfold tickFrame
  constructor
  · intro h
    injection h with h1 h2 h3 h4 h5 h6
    exact ⟨h1, h2, h3, h4, h5, h6⟩
  · intro h
    obtain ⟨h1, h2, h3, h4, h5, h6⟩ := h
    rw [h1, h2, h3, h4, h5, h6]

/-- The control loop never modifies the frame fields (clock estimate,
room state, base rate, buffering, source). -/
theorem controlTick_frame (e : Engine) (now cur : ℚ) :
    tickFrame (controlTick e now cur).1 = tickFrame e := by
  unfold controlTick
  dsimp only
  split
  · exact setPlaybackRate_frame _ _
  · split
    · have h := setPlaybackRate_frame e (some e.basePlaybackRate)
      rw [tickFrame_eq_iff] at h ⊢
      exact h
    · split <;> exact targetRateTowards_frame _ _

/-- `controlTick` leaves the clock estimate fields untouched. -/
theorem controlTick_clock (e : Engine) (now cur : ℚ) :
    (controlTick e now cur).1.clockOffsetMs = e.clockOffsetMs ∧
    (controlTick e now cur).1.clockCalibrated = e.clockCalibrated := by
  have h := controlTick_frame e now cur
  rw [tickFrame_eq_iff] at h
  exact ⟨h.1, h.2.1⟩

theorem ensureAudioSource_fst (e : Engine) (url : String) :
    (ensureAudioSource e url).1 = { e with audioSrc := url } := by
  unfold ensureAudioSource
  split
  · rfl
  · rename_i h
    simp only [ne_eq, not_not] at h
    cases e
    simp_all

/-- A step sets `clockCalibrated` on a ping and never touches it otherwise;
in particular nothing ever clears it. -/
theorem stepE_calibrated (e : Engine) (ev : Event) :
    (stepE e ev).1.clockCalibrated = (isPingEvent ev || e.clockCalibrated) := by
  cases ev with
  | msg now cur m =>
      cases m with
      | init s =>
          simp [stepE, handleMessage, ensureAudioSource_fst, applyState, isPingEvent]
      | stateMsg reason s =>
          simp [stepE, handleMessage, ensureAudioSource_fst, applyState, isPingEvent]
      | ping t0 => simp [stepE, handleMessage, isPingEvent]
      | clients => simp [stepE, handleMessage, isPingEvent]
      | error => simp [stepE, handleMessage, isPingEvent]
  | tick now cur =>
      simp only [stepE, isPingEvent, Bool.false_or]
      exact (controlTick_clock e now cur).2
  | wsOpen => simp [stepE, wsOnOpen, isPingEvent]
  | wsClose =>
      simp only [stepE, isPingEvent, Bool.false_or]
      unfold wsOnClose
      split <;> rfl
  | bufferStart => simp [stepE, isPingEvent]
  | bufferEnd => simp [stepE, isPingEvent]

/-- Only snapshot messages (init/state) can change the mirrored room
state. -/
theorem stepE_roomState (e : Engine) (ev : Event) (h : isSnapshotEvent ev = false) :
    (stepE e ev).1.roomState = e.roomState := by
  cases ev with
  | msg now cur m =>
      cases m with
      | init s => simp [isSnapshotEvent] at h
      | stateMsg reason s => simp [isSnapshotEvent] at h
      | ping t0 => rfl
      | clients => rfl
      | error => rfl
  | tick now cur =>
      have hf := controlTick_frame e now cur
      rw [tickFrame_eq_iff] at hf
      exact hf.2.2.2.1
  | wsOpen => rfl
  | wsClose =>
      simp only [stepE]
      unfold wsOnClose
      split <;> rfl
  | bufferStart => rfl
  | bufferEnd => rfl

/-- `runE` over an appended trace runs the pieces in sequence. -/
theorem runE_append (e : Engine) (xs ys : List Event) :
    runE e (xs ++ ys) =
      ((runE (runE e xs).1 ys).1, (runE e xs).2 ++ (runE (runE e xs).1 ys).2) := by
  induction xs generalizing e with
  | nil => simp [runE]
  | cons x xs ih =>
      simp only [List.cons_append, runE, List.append_eq]
      rw [ih]
      simp [List.append_assoc]

/-- An active tick whose drift is in the dead band decays the integrator
by 0.9 and relaxes toward the base rate. -/
theorem controlTick_dead (e : Engine) (now cur d : ℚ)
    (hIdle : tickIdle e = false) (hd : driftMsOf e now cur = some d)
    (h25 : |d| ≤ 25) :
    controlTick e now cur =
      targetRateTowards { e with driftInt := jsMul e.driftInt (some 0.9) }
        (some e.basePlaybackRate) := by
  unfold driftMsOf at hd
  unfold controlTick
  rw [hIdle]
  dsimp only
  rw [hd]
  have h1 : jsGtB (jsAbs (some d)) (some 1500) = false := by
    simp only [jsAbs_some, jsGtB_some, decide_eq_false_iff_not, not_lt]
    linarith [abs_nonneg d]
  have h2 : jsLeB (jsAbs (some d)) (some 25) = true := by
    simp only [jsAbs_some, jsLeB_some, decide_eq_true_eq]
    exact h25
  rw [h1, h2]
  simp

/-- An active tick whose drift magnitude exceeds the hard-seek limit
seeks to the desired position, relaxes the rate toward base through the
smoother, and zeroes the integrator. -/
theorem controlTick_hard (e : Engine) (now cur d : ℚ)
    (hIdle : tickIdle e = false) (hd : driftMsOf e now cur = some d)
    (h15 : 1500 < |d|) :
    controlTick e now cur =
      ({ (setPlaybackRate e (some e.basePlaybackRate)).1 with driftInt := some 0 },
       Out.call (FCall.seekTo (jsMax (some 0) (desiredPositionSec e now))) ::
         (setPlaybackRate e (some e.basePlaybackRate)).2) := by
  unfold driftMsOf at hd
  unfold controlTick
  rw [hIdle]
  dsimp only
  rw [hd]
  have h1 : jsGtB (jsAbs (some d)) (some 1500) = true := by
    simp only [jsAbs_some, jsGtB_some, decide_eq_true_eq]
    exact h15
  rw [h1]
  simp

/-- An active tick with drift between the dead band and the hard-seek
limit runs the PI controller and relaxes toward the clamped target. -/
theorem controlTick_pi (e : Engine) (now cur d : ℚ)
    (hIdle : tickIdle e = false) (hd : driftMsOf e now cur = some d)
    (h15 : ¬ 1500 < |d|) (h25 : ¬ |d| ≤ 25) :
    controlTick e now cur =
      targetRateTowards
        { e with driftInt :=
            (jsAdd (jsMul e.driftInt (some 0.98))
              (jsMul (jsSub (jsMax (some 0) (desiredPositionSec e now)) (some cur))
                (some (200 / 1000)))) }
        (jsMul (some e.basePlaybackRate)
          (jsAdd (some 1)
            (jsClamp
              (jsAdd
                (jsMul (some 0.10)
                  (jsSub (jsMax (some 0) (desiredPositionSec e now)) (some cur)))
                (jsMul (some 0.02)
                  (jsAdd (jsMul e.driftInt (some 0.98))
                    (jsMul
                      (jsSub (jsMax (some 0) (desiredPositionSec e now)) (some cur))
                      (some (200 / 1000))))))
              (some (-0.015)) (some 0.015)))) := by
  unfold driftMsOf at hd
  unfold controlTick
  rw [hIdle]
  dsimp only
  rw [hd]
  have h1 : jsGtB (jsAbs (some d)) (some 1500) = false := by
    simp only [jsAbs_some, jsGtB_some, decide_eq_false_iff_not, not_lt]
    linarith [abs_le.mp (le_of_not_lt h15)]
  have h2 : jsLeB (jsAbs (some d)) (some 25) = false := by
    simp only [jsAbs_some, jsLeB_some, decide_eq_false_iff_not]
    exact h25
  rw [h1, h2]
  simp

/-! Arithmetic facts about the rational clamp. -/

theorem qclamp_eq_self (x lo hi : ℚ) (h1 : lo ≤ x) (h2 : x ≤ hi) :
    qclamp x lo hi = x := by
  unfold qclamp
  rw [max_eq_right h1, min_eq_right h2]

theorem qclamp_mem (x lo hi : ℚ) (h : lo ≤ hi) :
    lo ≤ qclamp x lo hi ∧ qclamp x lo hi ≤ hi := by
  unfold qclamp
  exact ⟨le_min h (le_max_left _ _), min_le_left _ _⟩

/-- Clamping into an interval containing `r` cannot move a value further
from `r`. -/
theorem qclamp_abs_le (x lo hi r : ℚ) (h1 : lo ≤ r) (h2 : r ≤ hi) :
    |qclamp x lo hi - r| ≤ |x - r| := by
  unfold qclamp
  rcases le_total x lo with hx | hx
  · rw [max_eq_left hx, min_eq_right (h1.trans h2),
      abs_of_nonpos (by linarith), abs_of_nonpos (by linarith)]
    linarith
  · rw [max_eq_right hx]
    rcases le_total x hi with hy | hy
    · rw [min_eq_right hy]
    · rw [min_eq_left hy, abs_of_nonneg (by linarith), abs_of_nonneg (by linarith)]
      linarith

/-- One slew-limited, smoothed rate update moves the applied rate by at
most 0.004 when the previous rate is within the hard sane bounds. -/
theorem slew_math (t r : ℚ) (h1 : 0.5 ≤ r) (h2 : r ≤ 2) :
    |r + (qclamp (r + qclamp (t - r) (-0.004) 0.004) 0.5 2 - r) * 0.3 - r|
      ≤ 0.004 := by
  have hs : |qclamp (t - r) (-0.004) 0.004| ≤ 0.004 := by
    have hm := qclamp_mem (t - r) (-0.004) 0.004 (by norm_num)
    rw [abs_le]
    exact ⟨hm.1, hm.2⟩
  have hq : |qclamp (r + qclamp (t - r) (-0.004) 0.004) 0.5 2 - r|
      ≤ |qclamp (t - r) (-0.004) 0.004| := by
    have := qclamp_abs_le (r + qclamp (t - r) (-0.004) 0.004) 0.5 2 r h1 h2
    simpa using this
  have habs : |(qclamp (r + qclamp (t - r) (-0.004) 0.004) 0.5 2 - r) * 0.3|
      = |qclamp (r + qclamp (t - r) (-0.004) 0.004) 0.5 2 - r| * 0.3 := by
    rw [abs_mul]
    norm_num
  calc |r + (qclamp (r + qclamp (t - r) (-0.004) 0.004) 0.5 2 - r) * 0.3 - r|
      = |(qclamp (r + qclamp (t - r) (-0.004) 0.004) 0.5 2 - r) * 0.3| := by
        ring_nf
    _ = |qclamp (r + qclamp (t - r) (-0.004) 0.004) 0.5 2 - r| * 0.3 := habs
    _ ≤ 0.004 * 0.3 := by
        have := hq.trans hs
        nlinarith [abs_nonneg (qclamp (r + qclamp (t - r) (-0.004) 0.004) 0.5 2 - r)]
    _ ≤ 0.004 := by norm_num

/-- One dead-band relaxation step keeps the applied rate within the sane
bounds and moves it (weakly) toward the base rate, when both lie within
the bounds. -/
theorem relax_math (r b : ℚ) (hr1 : 0.5 ≤ r) (hr2 : r ≤ 2)
    (hb1 : 0.5 ≤ b) (hb2 : b ≤ 2) :
    0.5 ≤ r + (qclamp (r + qclamp (b - r) (-0.004) 0.004) 0.5 2 - r) * 0.3 ∧
    r + (qclamp (r + qclamp (b - r) (-0.004) 0.004) 0.5 2 - r) * 0.3 ≤ 2 ∧
    |r + (qclamp (r + qclamp (b - r) (-0.004) 0.004) 0.5 2 - r) * 0.3 - b|
      ≤ |r - b| := by
  rcases le_total r b with hrb | hrb
  · have hs1 : qclamp (b - r) (-0.004) 0.004 = min 0.004 (b - r) := by
      unfold qclamp
      rw [max_eq_right (by linarith)]
    have hs2 : 0 ≤ min 0.004 (b - r) := le_min (by norm_num) (by linarith)
    have hs3 : min 0.004 (b - r) ≤ b - r := min_le_right _ _
    have hid : qclamp (r + min 0.004 (b - r)) 0.5 2
        = r + min 0.004 (b - r) :=
      qclamp_eq_self _ _ _ (by linarith) (by linarith)
    rw [hs1, hid]
    refine ⟨by linarith, by linarith, ?_⟩
    rw [abs_of_nonpos (by linarith), abs_of_nonpos (by linarith)]
    linarith
  · have hs1 : qclamp (b - r) (-0.004) 0.004 = max (-0.004) (b - r) := by
      unfold qclamp
      rw [min_eq_right (max_le (by norm_num) (by linarith))]
    have hs2 : max (-0.004) (b - r) ≤ 0 := max_le (by norm_num) (by linarith)
    have hs3 : b - r ≤ max (-0.004) (b - r) := le_max_right _ _
    have hid : qclamp (r + max (-0.004) (b - r)) 0.5 2
        = r + max (-0.004) (b - r) :=
      qclamp_eq_self _ _ _ (by linarith) (by linarith)
    rw [hs1, hid]
    refine ⟨by linarith, by linarith, ?_⟩
    rw [abs_of_nonneg (by linarith), abs_of_nonneg (by linarith)]
    linarith

/-- The room state mirrored from the server survives any trace free of
snapshot messages. -/
theorem runE_roomState (e : Engine) (es : List Event)
    (h : ∀ ev ∈ es, isSnapshotEvent ev = false) :
    (runE e es).1.roomState = e.roomState := by
  induction es generalizing e with
  | nil => rfl
  | cons ev evs ih =>
      simp only [runE]
      rw [ih (stepE e ev).1 fun x hx => h x (List.mem_cons_of_mem _ hx)]
      exact stepE_roomState e ev (h ev (List.mem_cons_self _ _))

/-- `clockCalibrated` after a trace: latched true by any ping. -/
theorem runE_calibrated (e : Engine) (es : List Event) :
    (runE e es).1.clockCalibrated = (es.any isPingEvent || e.clockCalibrated) := by
  induction es generalizing e with
  | nil => simp [runE]
  | cons ev evs ih =>
      simp only [runE, List.any_cons]
      rw [ih (stepE e ev).1, stepE_calibrated]
      cases isPingEvent ev <;> simp

/-- Reconnect backoff over `n` consecutive closes starting from attempt
counter `a`. -/
theorem runE_backoff (n : ℕ) (a : ℕ) (e : Engine)
    (ha : e.reconnectAttempts = a) (hs : e.shouldReconnect = true) :
    schedulesOf (runE e (List.replicate n Event.wsClose)).2
      = (List.range n).map (fun k => backoffDelay (a + k)) ∧
    (runE e (List.replicate n Event.wsClose)).1.reconnectAttempts = a + n ∧
    (runE e (List.replicate n Event.wsClose)).1.shouldReconnect = true := by
  induction n generalizing a e with
  | zero => simp [runE, schedulesOf, ha, hs]
  | succ n ih =>
      have hstep : stepE e Event.wsClose
          = ({ e with reconnectAttempts := a + 1 },
             [Out.schedule (min 5000 (500 * 2 ^ a))]) := by
        simp [stepE, wsOnClose, hs, ha]
      have hrest := ih (a + 1) { e with reconnectAttempts := a + 1 } rfl hs
      simp only [List.replicate_succ, runE, hstep]
      refine ⟨?_, ?_, ?_⟩
      · simp only [schedulesOf, List.filterMap_append, List.filterMap_cons,
          List.filterMap_nil] at hrest ⊢
        rw [hrest.1]
        simp only [List.range_succ_eq_map, List.map_cons, List.map_map,
          List.singleton_append]
        congr 1
        apply List.map_congr_left
        intro k _
        have hk : a + 1 + k = a + (k + 1) := by omega
        simp [hk]
      · rw [hrest.2.1]
        omega
      · exact hrest.2.2

/-- If the computed drift (ms) is numeric then so is the drift in
seconds, and it equals driftMs / 1000. -/
theorem driftMs_num (e : Engine) (now cur d : ℚ)
    (hd : driftMsOf e now cur = some d) :
    jsSub (jsMax (some 0) (desiredPositionSec e now)) (some cur)
      = some (d / 1000) := by
  unfold driftMsOf at hd
  cases h : jsSub (jsMax (some 0) (desiredPositionSec e now)) (some cur) with
  | none => rw [h] at hd; simp at hd
  | some x =>
      rw [h] at hd
      simp only [jsMul_some, Option.some.injEq] at hd
      congr 1
      rw [← hd]
      ring

/-- The rate update of `targetRateTowards` on numeric inputs, in closed
rational form. -/
theorem targetRateTowards_rate_num (e : Engine) (t r : ℚ)
    (hr : e.lastAppliedRate = some r) :
    (targetRateTowards e (some t)).1.lastAppliedRate
      = some (r + (qclamp (r + qclamp (t - r) (-0.004) 0.004) 0.5 2 - r) * 0.3) := by
  rw [targetRateTowards_lastAppliedRate, hr]
  simp
  norm_num

/-- Any slew-limited rate update from a numeric applied rate within the
sane bounds changes it by at most 0.004, whatever the target. -/
theorem targetRateTowards_slew (e : Engine) (t r : ℚ)
    (hr : e.lastAppliedRate = some r) (hr1 : 0.5 ≤ r) (hr2 : r ≤ 2) :
    ∃ r', (targetRateTowards e (some t)).1.lastAppliedRate = some r' ∧
      |r' - r| ≤ 0.004 := by
  rw [targetRateTowards_rate_num e t r hr]
  exact ⟨_, rfl, slew_math t r hr1 hr2⟩

/-- A concrete active engine state: playing, calibrated with zero offset,
loaded source, base rate 1, applied rate 1.1, nonzero integrator. -/
def exActiveEngine : Engine :=
  { clockOffsetMs := some 0
    lastPingRTT := some 20
    driftInt := some 5
    clockCalibrated := true
    basePlaybackRate := 1
    lastAppliedRate := some 1.1
    playbackRate := some 1.1
    lastStateReason := none
    roomState :=
      { track_url := "t"
        paused := false
        position_sec := 0
        start_epoch_ms := 0
        playback_rate := some 1
        volume := some 1 }
    buffering := false
    audioSrc := "t"
    reconnectAttempts := 0
    shouldReconnect := true }

/-- C2 counterexample: on an active tick with drift exactly 1501 ms the
loop hard-seeks and zeroes the integral, but the applied playback rate is
NOT reset to the base rate: from applied rate 1.1 and base rate 1 it ends
at 1.07 (30% toward base), not 1. -/
theorem C2_counterexample_rate_not_reset :
    exActiveEngine.basePlaybackRate = 1 ∧
    exActiveEngine.lastAppliedRate = some 1.1 ∧
    driftMsOf exActiveEngine 1501 0 = some 1501 ∧
    (controlTick exActiveEngine 1501 0).2
      = [Out.call (FCall.seekTo (some 1.501)), Out.call (FCall.setRate (some 1.07))] ∧
    (controlTick exActiveEngine 1501 0).1.driftInt = some 0 ∧
    (controlTick exActiveEngine 1501 0).1.lastAppliedRate = some 1.07 ∧
    (1.07 : ℚ) ≠ 1 := by
  refine ⟨rfl, rfl, ?_, ?_, ?_, ?_, by norm_num⟩
  · simp [driftMsOf, desiredPositionSec, exActiveEngine]
    norm_num
  · simp [controlTick, tickIdle, desiredPositionSec, exActiveEngine, setPlaybackRate,
      jsClamp, qclamp]
    norm_num [abs_of_nonneg]
  · simp [controlTick, tickIdle, desiredPositionSec, exActiveEngine, setPlaybackRate,
      jsClamp, qclamp]
    norm_num
  · simp [controlTick, tickIdle, desiredPositionSec, exActiveEngine, setPlaybackRate,
      jsClamp, qclamp]
    norm_num [abs_of_nonneg]

/-- C2 amended: on an active control-loop tick, drift of magnitude
exactly 1500 ms does not trigger a hard seek (the comparison is strict);
magnitude 1501 ms triggers a hard seek to the desired position, after
which the integral term equals exactly 0 — but the applied rate is only
moved 30% toward the clamped base rate, not reset to the base rate. -/
theorem C2_amended_hard_seek_boundary (e : Engine) (now cur : ℚ)
    (hIdle : tickIdle e = false) :
    (∀ d, driftMsOf e now cur = some d → |d| = 1500 →
        ∀ p, Out.call (FCall.seekTo p) ∉ (controlTick e now cur).2) ∧
    (∀ d, driftMsOf e now cur = some d → |d| = 1501 →
        Out.call (FCall.seekTo (jsMax (some 0) (desiredPositionSec e now)))
          ∈ (controlTick e now cur).2 ∧
        (controlTick e now cur).1.driftInt = some 0 ∧
        (controlTick e now cur).1.lastAppliedRate
          = jsAdd e.lastAppliedRate
              (jsMul
                (jsSub (jsClamp (some e.basePlaybackRate) (some 0.5) (some 2.0))
                  e.lastAppliedRate)
                (some 0.3))) := by
  constructor
  · intro d hd habs p
    rw [controlTick_pi e now cur d hIdle hd (by rw [habs]; norm_num)
      (by rw [habs]; norm_num)]
    exact targetRateTowards_no_seek _ _ _
  · intro d hd habs
    rw [controlTick_hard e now cur d hIdle hd (by rw [habs]; norm_num)]
    refine ⟨List.mem_cons_self _ _, rfl, ?_⟩
    exact setPlaybackRate_lastAppliedRate e (some e.basePlaybackRate)

/-- Witness for C2 at the concrete state: drift 1500 ms issues no seek,
drift 1501 ms zeroes the integral. -/
theorem C2_amended_hard_seek_boundary_witness :
    tickIdle exActiveEngine = false ∧
    (∀ p, Out.call (FCall.seekTo p) ∉ (controlTick exActiveEngine 1500 0).2) ∧
    (controlTick exActiveEngine 1501 0).1.driftInt = some 0 := by
  have h1500 : driftMsOf exActiveEngine 1500 0 = some 1500 := by
    simp [driftMsOf, desiredPositionSec, exActiveEngine]
    norm_num
  have h1501 : driftMsOf exActiveEngine 1501 0 = some 1501 := by
    simp [driftMsOf, desiredPositionSec, exActiveEngine]
    norm_num
  refine ⟨rfl, ?_, ?_⟩
  · exact fun p =>
      (C2_amended_hard_seek_boundary exActiveEngine 1500 0 rfl).1 1500 h1500
        (abs_of_nonneg (by norm_num)) p
  · exact ((C2_amended_hard_seek_boundary exActiveEngine 1501 0 rfl).2 1501 h1501
      (abs_of_nonneg (by norm_num))).2.1

/-- Engines with equal frames agree on the control-loop guard. -/
theorem tickIdle_of_frame (a b : Engine) (h : tickFrame a = tickFrame b) :
    tickIdle a = tickIdle b := by
  rw [tickFrame_eq_iff] at h
  obtain ⟨h1, h2, h3, h4, h5, h6⟩ := h
  unfold tickIdle
  rw [h2, h4, h5, h6]

/-- Engines with equal frames agree on the computed drift. -/
theorem driftMsOf_of_frame (a b : Engine) (now cur : ℚ)
    (h : tickFrame a = tickFrame b) :
    driftMsOf a now cur = driftMsOf b now cur := by
  rw [tickFrame_eq_iff] at h
  obtain ⟨h1, h2, h3, h4, h5, h6⟩ := h
  unfold driftMsOf desiredPositionSec
  rw [h1, h4]

@[simp] theorem jsMul_one (x : JSNum) : jsMul x (some 1) = x := by
  cases x <;> simp

theorem jsMul_jsMul (x : JSNum) (a b : ℚ) :
    jsMul (jsMul x (some a)) (some b) = jsMul x (some (a * b)) := by
  cases x <;> simp [mul_assoc]

/-- One dead-band tick: no seek, integrator decayed by 0.9, frame kept,
and the applied rate stays within bounds while moving weakly toward the
base rate. -/
theorem tick_dead_step (e : Engine) (now cur r d : ℚ)
    (hIdle : tickIdle e = false) (hr : e.lastAppliedRate = some r)
    (hr1 : 0.5 ≤ r) (hr2 : r ≤ 2)
    (hb1 : 0.5 ≤ e.basePlaybackRate) (hb2 : e.basePlaybackRate ≤ 2)
    (hd : driftMsOf e now cur = some d) (h25 : |d| ≤ 25) :
    ∃ r', (controlTick e now cur).1.lastAppliedRate = some r' ∧
      0.5 ≤ r' ∧ r' ≤ 2 ∧
      |r' - e.basePlaybackRate| ≤ |r - e.basePlaybackRate| ∧
      (controlTick e now cur).1.driftInt = jsMul e.driftInt (some 0.9) ∧
      tickFrame (controlTick e now cur).1 = tickFrame e ∧
      (∀ pos, Out.call (FCall.seekTo pos) ∉ (controlTick e now cur).2) := by
  rw [controlTick_dead e now cur d hIdle hd h25]
  have hrel := relax_math r e.basePlaybackRate hr1 hr2 hb1 hb2
  refine ⟨_, targetRateTowards_rate_num _ e.basePlaybackRate r hr,
    hrel.1, hrel.2.1, hrel.2.2, ?_, ?_, ?_⟩
  · rw [targetRateTowards_driftInt]
  · exact targetRateTowards_frame _ _
  · exact fun pos => targetRateTowards_no_seek _ _ _

/-- One dead-band tick, with no assumptions on the rates: no seek,
integrator decayed by 0.9, frame kept. -/
theorem tick_dead_basic (e : Engine) (now cur d : ℚ)
    (hIdle : tickIdle e = false) (hd : driftMsOf e now cur = some d)
    (h25 : |d| ≤ 25) :
    (controlTick e now cur).1.driftInt = jsMul e.driftInt (some 0.9) ∧
    tickFrame (controlTick e now cur).1 = tickFrame e ∧
    (∀ pos, Out.call (FCall.seekTo pos) ∉ (controlTick e now cur).2) := by
  rw [controlTick_dead e now cur d hIdle hd h25]
  refine ⟨?_, targetRateTowards_frame _ _,
    fun pos => targetRateTowards_no_seek _ _ _⟩
  rw [targetRateTowards_driftInt]

/-- Invariant of a run of dead-band ticks, with no assumptions on the
rates: the frame is preserved, no seek is issued, and the integrator
decays geometrically. -/
theorem ticks_dead_inv_basic (pts : List (ℚ × ℚ)) (e : Engine)
    (hIdle : tickIdle e = false)
    (hdead : ∀ p ∈ pts, ∃ d, driftMsOf e p.1 p.2 = some d ∧ |d| ≤ 25) :
    tickFrame (runTicks e pts).1 = tickFrame e ∧
    (runTicks e pts).1.driftInt
      = jsMul e.driftInt (some ((0.9 : ℚ) ^ pts.length)) ∧
    (∀ pos, Out.call (FCall.seekTo pos) ∉ (runTicks e pts).2) := by
  induction pts generalizing e with
  | nil =>
      refine ⟨rfl, ?_, ?_⟩
      · simp [runTicks, runE]
      · intro pos
        simp [runTicks, runE]
  | cons p pts ih =>
      obtain ⟨d, hd, h25⟩ := hdead p (List.mem_cons_self _ _)
      obtain ⟨hdint, hframe, hnoseek⟩ := tick_dead_basic e p.1 p.2 d hIdle hd h25
      have hrun : runTicks e (p :: pts)
          = ((runTicks (controlTick e p.1 p.2).1 pts).1,
             (controlTick e p.1 p.2).2
               ++ (runTicks (controlTick e p.1 p.2).1 pts).2) := rfl
      set e1 := (controlTick e p.1 p.2).1 with he1
      have hIdle1 : tickIdle e1 = false := by
        rw [tickIdle_of_frame e1 e hframe]
        exact hIdle
      have hdead1 : ∀ q ∈ pts, ∃ d, driftMsOf e1 q.1 q.2 = some d ∧ |d| ≤ 25 := by
        intro q hq
        rw [driftMsOf_of_frame e1 e q.1 q.2 hframe]
        exact hdead q (List.mem_cons_of_mem _ hq)
      obtain ⟨hf, hi, hn⟩ := ih e1 hIdle1 hdead1
      refine ⟨?_, ?_, ?_⟩
      · rw [hrun]
        exact hf.trans hframe
      · rw [hrun]
        show (runTicks e1 pts).1.driftInt = _
        rw [hi, hdint, jsMul_jsMul]
        congr 2
        rw [List.length_cons, pow_succ]
        ring
      · intro pos
        rw [hrun]
        simp only [List.mem_append]
        rintro (h | h)
        · exact hnoseek pos h
        · exact hn pos h

/-- Invariant of a run of dead-band ticks: the frame is preserved, no
seek is issued, the integrator decays geometrically, and the applied rate
stays within bounds without moving away from base. -/
theorem ticks_dead_inv (pts : List (ℚ × ℚ)) (e : Engine) (r : ℚ)
    (hIdle : tickIdle e = false) (hr : e.lastAppliedRate = some r)
    (hr1 : 0.5 ≤ r) (hr2 : r ≤ 2)
    (hb1 : 0.5 ≤ e.basePlaybackRate) (hb2 : e.basePlaybackRate ≤ 2)
    (hdead : ∀ p ∈ pts, ∃ d, driftMsOf e p.1 p.2 = some d ∧ |d| ≤ 25) :
    ∃ r', (runTicks e pts).1.lastAppliedRate = some r' ∧
      0.5 ≤ r' ∧ r' ≤ 2 ∧
      |r' - e.basePlaybackRate| ≤ |r - e.basePlaybackRate| ∧
      tickFrame (runTicks e pts).1 = tickFrame e ∧
      (runTicks e pts).1.driftInt
        = jsMul e.driftInt (some ((0.9 : ℚ) ^ pts.length)) ∧
      (∀ pos, Out.call (FCall.seekTo pos) ∉ (runTicks e pts).2) := by
  induction pts generalizing e r with
  | nil =>
      refine ⟨r, hr, hr1, hr2, le_refl _, rfl, ?_, ?_⟩
      · simp [runTicks, runE]
      · intro pos
        simp [runTicks, runE]
  | cons p pts ih =>
      obtain ⟨d, hd, h25⟩ := hdead p (List.mem_cons_self _ _)
      obtain ⟨r1, hr1e, hb1', hb2', hmono, hdint, hframe, hnoseek⟩ :=
        tick_dead_step e p.1 p.2 r d hIdle hr hr1 hr2 hb1 hb2 hd h25
      have hrun : runTicks e (p :: pts)
          = ((runTicks (controlTick e p.1 p.2).1 pts).1,
             (controlTick e p.1 p.2).2
               ++ (runTicks (controlTick e p.1 p.2).1 pts).2) := rfl
      set e1 := (controlTick e p.1 p.2).1 with he1
      have hbase : e1.basePlaybackRate = e.basePlaybackRate := by
        have := (tickFrame_eq_iff _ _).mp hframe
        exact this.2.2.1
      have hIdle1 : tickIdle e1 = false := by
        rw [tickIdle_of_frame e1 e hframe]
        exact hIdle
      have hdead1 : ∀ q ∈ pts, ∃ d, driftMsOf e1 q.1 q.2 = some d ∧ |d| ≤ 25 := by
        intro q hq
        rw [driftMsOf_of_frame e1 e q.1 q.2 hframe]
        exact hdead q (List.mem_cons_of_mem _ hq)
      obtain ⟨r', hr'e, hc1, hc2, hc3, hc4, hc5, hc6⟩ :=
        ih e1 r1 hIdle1 hr1e hb1' hb2' (hbase ▸ hb1) (hbase ▸ hb2) hdead1
      refine ⟨r', by rw [hrun]; exact hr'e, hc1, hc2, ?_, ?_, ?_, ?_⟩
      · calc |r' - e.basePlaybackRate| = |r' - e1.basePlaybackRate| := by rw [hbase]
          _ ≤ |r1 - e1.basePlaybackRate| := hc3
          _ = |r1 - e.basePlaybackRate| := by rw [hbase]
          _ ≤ |r - e.basePlaybackRate| := hmono
      · rw [hrun]
        exact hc4.trans hframe
      · rw [hrun]
        show (runTicks e1 pts).1.driftInt = _
        rw [hc5, hdint, jsMul_jsMul]
        congr 2
        rw [List.length_cons, pow_succ]
        ring
      · intro pos
        rw [hrun]
        simp only [List.mem_append]
        rintro (h | h)
        · exact hnoseek pos h
        · exact hc6 pos h

/-- `runTicks` over an appended list of readings composes. -/
theorem runTicks_append (e : Engine) (xs ys : List (ℚ × ℚ)) :
    runTicks e (xs ++ ys)
      = ((runTicks (runTicks e xs).1 ys).1,
         (runTicks e xs).2 ++ (runTicks (runTicks e xs).1 ys).2) := by
  unfold runTicks
  rw [List.map_append, runE_append]

/-- A concrete paused engine state with a loaded source, base rate 2 and
applied rate 1. -/
def exPausedEngine : Engine :=
  { initEngine with
      audioSrc := "t"
      basePlaybackRate := 2
      lastAppliedRate := some 1
      playbackRate := some 1 }

/-- C4 counterexample: on a paused tick (one of the relax-toward-base
paths the claim explicitly includes) the rate update bypasses the slew
limiter: with applied rate 1 and base rate 2 one tick moves the applied
rate to 1.3, a change of 0.3 ≫ maxSlew = 0.004. -/
theorem C4_counterexample_relax_path_jumps :
    exPausedEngine.roomState.paused = true ∧
    exPausedEngine.lastAppliedRate = some 1 ∧
    exPausedEngine.basePlaybackRate = 2 ∧
    (controlTick exPausedEngine 0 0).1.lastAppliedRate = some 1.3 ∧
    ¬ (|(1.3 : ℚ) - 1| ≤ 0.004) := by
  have habs : |(1.3 : ℚ) - 1| = 0.3 := by
    rw [abs_of_nonneg] <;> norm_num
  refine ⟨rfl, rfl, rfl, ?_, by rw [habs]; norm_num⟩
  simp [controlTick, tickIdle, exPausedEngine, initEngine, setPlaybackRate,
    jsClamp, qclamp]
  norm_num
  split <;> rfl

/-- C4 amended: the slew bound |appliedRate(t) − appliedRate(t−1)| ≤
maxSlew = 0.004 holds for every active tick that does not hard-seek
(dead-band and PI paths), independent of the magnitude of the
controller's target rate, provided the applied rate and integrator are
numeric and the applied rate is within the hard sane bounds [0.5, 2.0];
the relax-toward-base paths (paused/buffering/uncalibrated,
post-hard-seek) and snapshot application bypass the slew limiter and can
move the rate by 30% of the gap to base in one step. -/
theorem C4_amended_slew_bound (e : Engine) (now cur r di d : ℚ)
    (hIdle : tickIdle e = false)
    (hr : e.lastAppliedRate = some r) (hr1 : 0.5 ≤ r) (hr2 : r ≤ 2)
    (hdi : e.driftInt = some di)
    (hd : driftMsOf e now cur = some d) (h15 : |d| ≤ 1500) :
    ∃ r', (controlTick e now cur).1.lastAppliedRate = some r' ∧
      |r' - r| ≤ 0.004 := by
  rcases le_or_lt |d| 25 with h25 | h25
  · rw [controlTick_dead e now cur d hIdle hd h25]
    exact targetRateTowards_slew _ _ r hr hr1 hr2
  · rw [controlTick_pi e now cur d hIdle hd (by rw [not_lt]; exact h15)
      (not_le.mpr h25)]
    rw [driftMs_num e now cur d hd, hdi]
    simp only [jsMul_some, jsAdd_some, jsClamp_some]
    exact targetRateTowards_slew _ _ r hr hr1 hr2

/-- Witness for C4 at the concrete active state, drift 100 ms (PI path). -/
theorem C4_amended_slew_bound_witness :
    ∃ r', (controlTick exActiveEngine 100 0).1.lastAppliedRate = some r' ∧
      |r' - 1.1| ≤ 0.004 := by
  apply C4_amended_slew_bound exActiveEngine 100 0 1.1 5 100 rfl rfl
    (by norm_num) (by norm_num) rfl
  · simp [driftMsOf, desiredPositionSec, exActiveEngine]
    norm_num
  · rw [abs_of_nonneg] <;> norm_num

/-- A concrete active engine whose server-advised base rate 3 lies above
the hard sane bound 2.0; the applied rate starts equal to the base, as
`applyState` leaves it after such a snapshot. -/
def exRate3Engine : Engine :=
  { exActiveEngine with
      basePlaybackRate := 3
      lastAppliedRate := some 3
      playbackRate := some 3
      driftInt := some 1
      roomState := { exActiveEngine.roomState with playback_rate := some 3 } }

/-- C3 counterexample: a dead-band tick (drift exactly 0) from base rate
3 and applied rate 3 moves the applied rate to 2.7 — strictly AWAY from
the base rate, refuting unconditional monotone relaxation toward base. -/
theorem C3_counterexample_monotone_fails :
    exRate3Engine.basePlaybackRate = 3 ∧
    exRate3Engine.lastAppliedRate = some 3 ∧
    driftMsOf exRate3Engine 10000 10 = some 0 ∧
    (controlTick exRate3Engine 10000 10).1.lastAppliedRate = some 2.7 ∧
    ¬ (|(2.7 : ℚ) - 3| ≤ |(3 : ℚ) - 3|) := by
  have h1 : |(2.7 : ℚ) - 3| = 0.3 := by
    rw [abs_of_nonpos] <;> norm_num
  have h2 : |(3 : ℚ) - 3| = 0 := by norm_num
  refine ⟨rfl, rfl, ?_, ?_, by rw [h1, h2]; norm_num⟩
  · simp [driftMsOf, desiredPositionSec, exRate3Engine, exActiveEngine]
    norm_num
  · simp [controlTick, tickIdle, desiredPositionSec, exRate3Engine,
      exActiveEngine, targetRateTowards, setPlaybackRate, jsClamp, qclamp]
    norm_num
    split <;> rfl

/-- C3 amended: over any run of active control-loop ticks whose drift
stays within the dead band (|driftMs| ≤ 25), no seek is ever issued and
the integral term is multiplied by 0.9 on each tick — unconditionally;
whenever the base rate and the applied rate additionally lie within the
hard sane bounds [0.5, 2.0], the applied rate also moves monotonically
toward the base rate (outside those bounds the clamp can push it away,
as the counterexample shows). -/
theorem C3_amended_deadband (e : Engine) (pts : List (ℚ × ℚ))
    (hIdle : tickIdle e = false)
    (hdead : ∀ p ∈ pts, ∃ d, driftMsOf e p.1 p.2 = some d ∧ |d| ≤ 25) :
    (∀ pos, Out.call (FCall.seekTo pos) ∉ (runTicks e pts).2) ∧
    (runTicks e pts).1.driftInt
      = jsMul e.driftInt (some ((0.9 : ℚ) ^ pts.length)) ∧
    (∀ p x q, pts = p ++ x :: q →
      (runTicks e (p ++ [x])).1.driftInt
        = jsMul (runTicks e p).1.driftInt (some 0.9)) ∧
    (∀ r, e.lastAppliedRate = some r → 0.5 ≤ r → r ≤ 2 →
      0.5 ≤ e.basePlaybackRate → e.basePlaybackRate ≤ 2 →
      ∀ p x q, pts = p ++ x :: q →
        ∃ r1 r2, (runTicks e p).1.lastAppliedRate = some r1 ∧
          (runTicks e (p ++ [x])).1.lastAppliedRate = some r2 ∧
          |r2 - e.basePlaybackRate| ≤ |r1 - e.basePlaybackRate|) := by
  obtain ⟨_, hint, hnoseek⟩ := ticks_dead_inv_basic pts e hIdle hdead
  refine ⟨hnoseek, hint, ?_, ?_⟩
  · intro p x q hsplit
    have hdeadp : ∀ y ∈ p, ∃ d, driftMsOf e y.1 y.2 = some d ∧ |d| ≤ 25 := by
      intro y hy
      exact hdead y (hsplit ▸ List.mem_append_left _ hy)
    obtain ⟨d, hd, h25⟩ :=
      hdead x (hsplit ▸ List.mem_append_right _ (List.mem_cons_self _ _))
    obtain ⟨hframe, _, _⟩ := ticks_dead_inv_basic p e hIdle hdeadp
    set ep := (runTicks e p).1 with hep
    have hIdlep : tickIdle ep = false := by
      rw [tickIdle_of_frame ep e hframe]
      exact hIdle
    have hdp : driftMsOf ep x.1 x.2 = some d := by
      rw [driftMsOf_of_frame ep e x.1 x.2 hframe]
      exact hd
    have hsingle : (runTicks e (p ++ [x])).1 = (controlTick ep x.1 x.2).1 := by
      rw [runTicks_append]
      rfl
    rw [hsingle]
    exact (tick_dead_basic ep x.1 x.2 d hIdlep hdp h25).1
  · intro r hr hr1 hr2 hb1 hb2 p x q hsplit
    have hdeadp : ∀ y ∈ p, ∃ d, driftMsOf e y.1 y.2 = some d ∧ |d| ≤ 25 := by
      intro y hy
      exact hdead y (hsplit ▸ List.mem_append_left _ hy)
    obtain ⟨d, hd, h25⟩ :=
      hdead x (hsplit ▸ List.mem_append_right _ (List.mem_cons_self _ _))
    obtain ⟨r1, hr1e, hc1, hc2, hc3, hframe, _, _⟩ :=
      ticks_dead_inv p e r hIdle hr hr1 hr2 hb1 hb2 hdeadp
    set ep := (runTicks e p).1 with hep
    have hbase : ep.basePlaybackRate = e.basePlaybackRate :=
      ((tickFrame_eq_iff _ _).mp hframe).2.2.1
    have hIdlep : tickIdle ep = false := by
      rw [tickIdle_of_frame ep e hframe]
      exact hIdle
    have hdp : driftMsOf ep x.1 x.2 = some d := by
      rw [driftMsOf_of_frame ep e x.1 x.2 hframe]
      exact hd
    obtain ⟨r2, hr2e, _, _, hmono, hdint, _, _⟩ :=
      tick_dead_step ep x.1 x.2 r1 d hIdlep hr1e hc1 hc2
        (hbase ▸ hb1) (hbase ▸ hb2) hdp h25
    have hsingle : (runTicks e (p ++ [x])).1 = (controlTick ep x.1 x.2).1 := by
      rw [runTicks_append]
      rfl
    exact ⟨r1, r2, hr1e, by rw [hsingle]; exact hr2e, by
      calc |r2 - e.basePlaybackRate| = |r2 - ep.basePlaybackRate| := by rw [hbase]
        _ ≤ |r1 - ep.basePlaybackRate| := hmono
        _ = |r1 - e.basePlaybackRate| := by rw [hbase]⟩

/-- Witness for C3: two dead-band ticks at the concrete active state
(drift 0 at both readings) issue no seek and decay the integral from 5
to 5 · 0.9²; one dead-band tick at the base-3 state (outside the sane
bounds) still decays the integral by 0.9. -/
theorem C3_amended_deadband_witness :
    (∀ pos, Out.call (FCall.seekTo pos)
        ∉ (runTicks exActiveEngine [(0, 0), (10, 0.01)]).2) ∧
    (runTicks exActiveEngine [(0, 0), (10, 0.01)]).1.driftInt
      = jsMul exActiveEngine.driftInt
          (some ((0.9 : ℚ) ^ ([((0 : ℚ), (0 : ℚ)), (10, 0.01)] : List (ℚ × ℚ)).length)) ∧
    (runTicks exRate3Engine [(10000, 10)]).1.driftInt
      = jsMul exRate3Engine.driftInt
          (some ((0.9 : ℚ) ^ ([((10000 : ℚ), (10 : ℚ))] : List (ℚ × ℚ)).length)) := by
  have hdeadA : ∀ p ∈ ([((0 : ℚ), (0 : ℚ)), (10, 0.01)] : List (ℚ × ℚ)),
      ∃ d, driftMsOf exActiveEngine p.1 p.2 = some d ∧ |d| ≤ 25 := by
    intro p hp
    fin_cases hp
    · refine ⟨0, ?_, by norm_num⟩
      simp [driftMsOf, desiredPositionSec, exActiveEngine]
    · refine ⟨0, ?_, by norm_num⟩
      simp [driftMsOf, desiredPositionSec, exActiveEngine]
      norm_num
  have hdeadB : ∀ p ∈ ([((10000 : ℚ), (10 : ℚ))] : List (ℚ × ℚ)),
      ∃ d, driftMsOf exRate3Engine p.1 p.2 = some d ∧ |d| ≤ 25 := by
    intro p hp
    fin_cases hp
    refine ⟨0, ?_, by norm_num⟩
    simp [driftMsOf, desiredPositionSec, exRate3Engine, exActiveEngine]
    norm_num
  exact ⟨(C3_amended_deadband exActiveEngine _ rfl hdeadA).1,
    (C3_amended_deadband exActiveEngine _ rfl hdeadA).2.1,
    (C3_amended_deadband exRate3Engine _ rfl hdeadB).2.1⟩

/-- C1: for every ping carrying a server send timestamp t0, the handler
measures rtt = now − t0 and sets the clock offset to exactly
t0 + rtt/2 − now; in particular t0 = 1000 with measured rtt = 60 (local
receipt at now = 1060) yields offsetMs = t0 + 30 − now = −30. -/
theorem C1_ping_offset_exact (e : Engine) (now cur t0 : ℚ) :
    (handleMessage e now cur (Msg.ping (some t0))).1.lastPingRTT = some (now - t0) ∧
    (handleMessage e now cur (Msg.ping (some t0))).1.clockOffsetMs
      = some (t0 + (now - t0) / 2 - now) ∧
    (handleMessage initEngine 1060 0 (Msg.ping (some 1000))).1.lastPingRTT = some 60 ∧
    (handleMessage initEngine 1060 0 (Msg.ping (some 1000))).1.clockOffsetMs
      = some (1000 + 60 / 2 - 1060) ∧
    (1000 + 60 / 2 - 1060 : ℚ) = -30 := by
  refine ⟨by simp [handleMessage], by simp [handleMessage], ?_, ?_, by norm_num⟩
  · simp [handleMessage]
    norm_num
  · simp [handleMessage]
    norm_num

/-- C5: after a snapshot with paused = true and positionSec = 42, the
desired position evaluates to exactly 42 at every later local time and
clock offset, across any further events that are not snapshots. -/
theorem C5_paused_position_total (e : Engine) (now : ℚ) (es : List Event)
    (hp : e.roomState.paused = true) (hpos : e.roomState.position_sec = 42)
    (hes : ∀ ev ∈ es, isSnapshotEvent ev = false) :
    desiredPositionSec (runE e es).1 now = some 42 := by
  unfold desiredPositionSec
  rw [runE_roomState e es hes, hp, hpos]
  simp

/-- Witness for C5 at a concrete paused snapshot state and a concrete
snapshot-free trace. -/
theorem C5_paused_position_total_witness :
    desiredPositionSec
      (runE
        { initEngine with
            roomState := { initEngine.roomState with position_sec := 42 } }
        [Event.tick 5 0, Event.msg 7 0 (Msg.ping (some 3)), Event.wsClose,
          Event.wsOpen]).1 123456 = some 42 := by
  apply C5_paused_position_total
  · rfl
  · rfl
  · intro ev hev
    fin_cases hev <;> rfl

/-- C6: n consecutive connection failures from attempt counter 0 schedule
delays min(5000, 500·2^k) for k = 0..n−1, and a successful open resets
the counter to 0. -/
theorem C6_backoff_schedule (n : ℕ) (e : Engine)
    (ha : e.reconnectAttempts = 0) (hs : e.shouldReconnect = true) :
    schedulesOf (runE e (List.replicate n Event.wsClose)).2
      = (List.range n).map (fun k => min 5000 (500 * 2 ^ k)) ∧
    (∀ e' : Engine, (wsOnOpen e').1.reconnectAttempts = 0) := by
  have h := (runE_backoff n 0 e ha hs).1
  constructor
  · rw [h]
    simp [backoffDelay]
  · intro e'
    rfl

/-- Witness for C6: three failures from the initial state schedule
500, 1000, 2000 ms. -/
theorem C6_backoff_schedule_witness :
    schedulesOf (runE initEngine (List.replicate 3 Event.wsClose)).2
      = (List.range 3).map (fun k => min 5000 (500 * 2 ^ k)) ∧
    (List.range 3).map (fun k => min 5000 (500 * 2 ^ k)) = [500, 1000, 2000] :=
  ⟨(C6_backoff_schedule 3 initEngine rfl rfl).1, by decide⟩

/-- C7 counterexample: a ping with a missing/unparsable t0 is NOT dropped
silently with the estimate unchanged — it flips `clockCalibrated` to true
and poisons the offset (NaN, modelled `none`). -/
theorem C7_counterexample_bad_probe_changes_estimate :
    (handleMessage initEngine 1000 0 (Msg.ping none)).1.clockCalibrated = true ∧
    initEngine.clockCalibrated = false ∧
    (handleMessage initEngine 1000 0 (Msg.ping none)).1.clockOffsetMs = none ∧
    initEngine.clockOffsetMs = some 0 := by
  refine ⟨rfl, rfl, ?_, rfl⟩
  simp [handleMessage]

/-- C7 amended: a ping whose t0 is missing or unparsable raises no error
(the handler is total and still answers with a pong), but the estimate is
not left unchanged: offsetMs and lastRttMs become NaN and calibrated
becomes true. -/
theorem C7_amended_bad_probe (e : Engine) (now cur : ℚ) :
    (handleMessage e now cur (Msg.ping none)).1.clockOffsetMs = none ∧
    (handleMessage e now cur (Msg.ping none)).1.lastPingRTT = none ∧
    (handleMessage e now cur (Msg.ping none)).1.clockCalibrated = true ∧
    (handleMessage e now cur (Msg.ping none)).2 = [Out.sendPong none] := by
  refine ⟨?_, ?_, rfl, rfl⟩ <;> simp [handleMessage]

/-- C8 counterexample: calibrate by one probe, then disconnect and
reconnect — the engine still reports itself calibrated, so a reconnect
does not return it to the uncalibrated state. -/
theorem C8_counterexample_reconnect_keeps_calibrated :
    (runE initEngine
      [Event.msg 1000 0 (Msg.ping (some 1000)), Event.wsClose, Event.wsOpen]).1.clockCalibrated
      = true := by
  simp [runE, stepE, handleMessage, wsOnClose, wsOnOpen, initEngine]

/-- C8 amended: calibrated is false at session start and is set true by
any probe reply; nothing — including disconnects and reconnects — ever
clears it: after any trace it is true exactly when some probe arrived. -/
theorem C8_amended_calibrated_latch (es : List Event) :
    (runE initEngine es).1.clockCalibrated = true ↔
      ∃ ev ∈ es, isPingEvent ev = true := by
  rw [runE_calibrated]
  simp [initEngine, List.any_eq_true]

/-- C9: the engine is deterministic — identical input traces (messages
with their snapshots/reasons, probes with their timestamps, and identical
local clock and media position readings) produce identical sequences of
Media Control Facade calls. -/
theorem C9_deterministic (t1 t2 : List Event) (h : t1 = t2) :
    facadeCalls t1 = facadeCalls t2 := by
  rw [h]

/-- Witness for C9 at a concrete trace. -/
theorem C9_deterministic_witness :
    facadeCalls [Event.msg 10 0 (Msg.ping (some 4)), Event.tick 11 0]
      = facadeCalls [Event.msg 10 0 (Msg.ping (some 4)), Event.tick 11 0] :=
  C9_deterministic _ _ rfl

/-- C10: on every init or state message the volume written to the media
element is `applyVolumeVal` of the snapshot volume field, which clamps a
numeric volume to [0,1] and defaults a non-numeric one to 1.0. -/
theorem C10_volume_clamped (s : Snapshot) (e : Engine) (now cur : ℚ)
    (reason : Option String) (q : ℚ) :
    (0 ≤ applyVolumeVal s.volume ∧ applyVolumeVal s.volume ≤ 1) ∧
    applyVolumeVal none = 1 ∧
    applyVolumeVal (some q) = max 0 (min 1 q) ∧
    Out.call (FCall.setVolume (applyVolumeVal s.volume))
      ∈ (handleMessage e now cur (Msg.init s)).2 ∧
    Out.call (FCall.setVolume (applyVolumeVal s.volume))
      ∈ (handleMessage e now cur (Msg.stateMsg reason s)).2 := by
  refine ⟨⟨?_, ?_⟩, rfl, rfl, ?_, ?_⟩
  · cases hv : s.volume with
    | none => norm_num [applyVolumeVal]
    | some v => simp [applyVolumeVal]
  · cases hv : s.volume with
    | none => norm_num [applyVolumeVal]
    | some v =>
        simp only [applyVolumeVal]
        exact max_le (by norm_num) (min_le_left _ _)
  · simp [handleMessage]
  · simp [handleMessage]

end Lemmas
